import Mathlib

/-!
Verification of the `mmp_practicum_fall_2025` seminar code: a shallow
embedding of `Seminars/15-parallel/habr.py`, `Seminars/15-parallel/matmul.py`
and `Seminars/11-intro-web/toy_project/server.py`, together with theorems
settling the specification claims about them.

Machine integers of the Python source are embedded as `Int` (Python ints are
unbounded), Python `float` matrix entries as `ℚ` (the exact-arithmetic
abstraction under which the spec states the multiply-accumulate formula),
Python `IndexError` as `Option`/`none`, and `SystemExit` as `Except.error`.
-/

namespace Habr

/-- Python `range(a, b)` over unbounded integers: the list `a, a+1, …, b-1`,
empty when `b ≤ a`. -/
def pyRange (a b : Int) : List Int :=
  (List.range (b - a).toNat).map (fun (k : Nat) => a + (k : Int))

/-- Embedding of `get_page(url, n_attempts, t_sleep)` from `habr.py`.
The network is an oracle `fetch : Nat → Nat × String` giving, for each
attempt index, the HTTP status code and the response body text.  The loop
tries attempts in order; on the first status `200` it returns the body, and
after exhausting the attempts it returns `none`.  The result also records how
many attempts were made and the total time slept (`time.sleep(t_sleep)` runs
once after every failed attempt). -/
def get_page_loop (fetch : Nat → Nat × String) (t_sleep : Nat) :
    Nat → Nat → Option String × Nat × Nat
  | 0, _ => (none, 0, 0)
  | rem + 1, idx =>
    if (fetch idx).1 = 200 then (some (fetch idx).2, 1, 0)
    else
      ((get_page_loop fetch t_sleep rem (idx + 1)).1,
       (get_page_loop fetch t_sleep rem (idx + 1)).2.1 + 1,
       (get_page_loop fetch t_sleep rem (idx + 1)).2.2 + t_sleep)

/-- Embedding of `get_page` started at attempt index 0 (defaults in the source:
`n_attempts=5`, `t_sleep=1`). -/
def get_page (fetch : Nat → Nat × String) (n_attempts t_sleep : Nat) :
    Option String × Nat × Nat :=
  get_page_loop fetch t_sleep n_attempts 0

/-- Embedding of `get_habr_article`: the page text when some attempt
succeeded, `none` otherwise. -/
def get_habr_article (fetch : Nat → Nat × String) (n_attempts t_sleep : Nat) :
    Option String :=
  (get_page fetch n_attempts t_sleep).1

/-- Embedding of `get_article_title`: `"NOT FOUND"` when the article could
not be fetched, otherwise the title extracted from the body by the HTML
parse (`BeautifulSoup(article).title`), embedded as an oracle
`extract : String → String`. -/
def get_article_title (extract : String → String)
    (fetch : Nat → Nat × String) (n_attempts t_sleep : Nat) : String :=
  match get_habr_article fetch n_attempts t_sleep with
  | none => "NOT FOUND"
  | some body => extract body

/-! For the execution strategies the per-task work is abstracted as a
deterministic `f : Int → String` (in the source, `get_article_title`
applied to the task id). -/

/-- Embedding of `single(n_tasks)`: the result collection built by
`[get_article_title(i) for i in range(1, n_tasks)]`.  Note the source
iterates `range(1, n_tasks)`, i.e. task ids `1 … n_tasks-1`. -/
def single (f : Int → String) (n_tasks : Int) : List String :=
  (pyRange 1 n_tasks).map f

/-- Effect, on the shared `titles` list, of one spawned thread in
`threads(n_tasks)`.  The source spawns
`threading.Thread(target=get_article_title, args=(i,))`: the thread computes
`get_article_title(i)` and discards the value — `get_article_title` does not
touch `titles`, so the shared list is unchanged. -/
def get_article_title_effect (f : Int → String) (i : Int)
    (titles : List String) : List String :=
  let _ := f i
  titles

/-- Effect, on the shared `titles` list, of `get_article_title_ths(i)` from
the source (the helper the `threads` comment describes but the code never
spawns): compute the title and store it, under the mutex, at index `i - 1`. -/
def get_article_title_ths (f : Int → String) (i : Int)
    (titles : List String) : List String :=
  titles.set (i - 1).toNat (f i)

/-- Embedding of `threads(n_tasks)`: `titles` is initialised to
`[""] * n_tasks`; one thread per id in `range(1, n_tasks+1)` is spawned with
target `get_article_title` and joined; the final shared `titles` list is the
result collection. -/
def threads (f : Int → String) (n_tasks : Int) : List String :=
  (pyRange 1 (n_tasks + 1)).foldl
    (fun ts i => get_article_title_effect f i ts)
    (List.replicate n_tasks.toNat "")

/-- The `threads` strategy as its own comment and the unused helper
`get_article_title_ths` describe it: each thread stores its result at index
`i - 1` of the shared list. -/
def threadsIntended (f : Int → String) (n_tasks : Int) : List String :=
  (pyRange 1 (n_tasks + 1)).foldl
    (fun ts i => get_article_title_ths f i ts)
    (List.replicate n_tasks.toNat "")

/-- Model of `Pool.map` result assembly: the workers finish in the order given by
`order` (a completion schedule listing submission indices); each completion
delivers the pair (submission index, result), and `map` returns the results
rearranged by submission index. -/
def poolCollect (pairs : List (Nat × String)) (n : Nat) : List String :=
  (List.range n).map (fun k => (pairs.lookup k).getD "")

/-- Model of `pool.map(f, tasks)` under an arbitrary completion schedule `order`. -/
def poolMap (f : Int → String) (tasks : List Int) (order : List Nat) :
    List String :=
  poolCollect (order.map (fun idx => (idx, f (tasks.getD idx 0)))) tasks.length

/-- Embedding of `thread_pool(n_tasks)`:
`pool.map(get_article_title, range(1, n_tasks))` on a
`multiprocessing.dummy.Pool`. -/
def thread_pool (f : Int → String) (n_tasks : Int) (order : List Nat) :
    List String :=
  poolMap f (pyRange 1 n_tasks) order

/-- Embedding of `process_pool(n_tasks)`:
`pool.map(get_article_title, range(1, n_tasks))` on a
`multiprocessing.Pool`; the result assembly is the same as `thread_pool`. -/
def process_pool (f : Int → String) (n_tasks : Int) (order : List Nat) :
    List String :=
  poolMap f (pyRange 1 n_tasks) order

/-- Python `f"{i:2}"`: the decimal rendering of `i`, left-padded with spaces
to width 2. -/
def pad2 (i : Int) : String :=
  let s := toString i
  if s.length < 2 then " " ++ s else s

/-- One driver output line: `print(f"Article {i:2} title: {title}")`. -/
def formatLine (i : Int) (title : String) : String :=
  "Article " ++ pad2 i ++ " title: " ++ title

/-- The driver's output: `for i, title in enumerate(titles, start=1)`. -/
def outputOf (titles : List String) : List String :=
  (List.range titles.length).map
    (fun (k : Nat) => formatLine ((k : Int) + 1) (titles.getD k ""))

/-- The `--mode` choices of `habr.py`. -/
inductive Mode
  | single
  | threads
  | pool
  | process_pool

/-- Embedding of `main()` of `habr.py` after argument parsing: the source
performs no validation of `n_tasks`; it dispatches on the mode and the
chosen strategy prints its lines; the process then exits normally.
`Except.error` would model a `SystemExit`; no path produces one. -/
def main (f : Int → String) (order : List Nat) (mode : Mode) (n_tasks : Int) :
    Except String (List String) :=
  Except.ok (outputOf (match mode with
    | .single => single f n_tasks
    | .threads => threads f n_tasks
    | .pool => thread_pool f n_tasks order
    | .process_pool => process_pool f n_tasks order))

end Habr

namespace Matmul

/-- Entry `M[i][j]` read totally: `0` when out of range (used only to state
values; the embedding of `matmul` itself is fallible). -/
def entryOf (M : List (List ℚ)) (i j : Nat) : ℚ :=
  ((M[i]?.getD [])[j]?).getD 0

/-- One execution of the loop body `C[i][j] += A[i][k] * B[k][j]` of
`matmul` from `matmul.py`, as the value added on top of the accumulator:
each Python index access is fallible (`IndexError` ↦ `none`). -/
def cellStep (A B : List (List ℚ)) (i j : Nat) (acc : ℚ) (k : Nat) :
    Option ℚ := do
  let Ai ← A[i]?
  let aik ← Ai[k]?
  let Bk ← B[k]?
  let bkj ← Bk[j]?
  pure (acc + aik * bkj)

/-- Embedding of `matmul(A, B)`: `m, l = len(A), len(A[0])`,
`_, n = len(B), len(B[0])` (reading `A[0]` and `B[0]` raises on empty
input), then the triple nested loop accumulating into the freshly zeroed
`C`.  Since the cell updates are independent, each `C[i][j]` is the fold of
its own `k`-loop from `0`. -/
def matmul (A B : List (List ℚ)) : Option (List (List ℚ)) := do
  let A0 ← A[0]?
  let B0 ← B[0]?
  (List.range A.length).mapM (fun i =>
    (List.range B0.length).mapM (fun j =>
      (List.range A0.length).foldlM (cellStep A B i j) 0))

/-- Predicate: `M` is an `m × n` matrix: `m` rows, each of length `n`. -/
def IsMatrix (M : List (List ℚ)) (m n : Nat) : Prop :=
  M.length = m ∧ ∀ row ∈ M, row.length = n

instance (M : List (List ℚ)) (m n : Nat) : Decidable (IsMatrix M m n) := by
  unfold IsMatrix
  infer_instance

/-- The `m × m` identity matrix. -/
def idMat (m : Nat) : List (List ℚ) :=
  (List.range m).map
    (fun i => (List.range m).map (fun j => if i = j then 1 else 0))

/-- The all-zero `m × n` matrix. -/
def zeroMat (m n : Nat) : List (List ℚ) :=
  List.replicate m (List.replicate n 0)

/-- The `--mode` choices of `matmul.py`. -/
inductive MMode
  | thread
  | process

/-- Embedding of `main()` of `matmul.py` after argument parsing: with no
`--njobs` it runs `single_thread()` (one multiplication); with `--njobs`
provided it raises `SystemExit("--njobs must be a positive integer.")` when
`njobs <= 0`, before any job starts, and otherwise runs `njobs` jobs.  The
`ok` payload is the number of `matmul` jobs executed. -/
def main (njobs : Option Int) (mode : MMode) : Except String Nat :=
  match njobs with
  | none => Except.ok 1
  | some nj =>
    if nj ≤ 0 then Except.error "--njobs must be a positive integer."
    else Except.ok nj.toNat

/-- The mutable state of one `matmul` execution: the argument matrices `A`
and `B` and the result matrix `C` being filled in. -/
structure MState where
  A : List (List ℚ)
  B : List (List ℚ)
  C : List (List ℚ)

/-- In-place update `M[i][j] = v` on a list-of-lists. -/
def set2 (M : List (List ℚ)) (i j : Nat) (v : ℚ) : List (List ℚ) :=
  M.set i ((M.getD i []).set j v)

/-- The single mutating statement of the `matmul` loop body,
`C[i][j] += A[i][k] * B[k][j]`, as a write to `C`. -/
def cellWrite (A B C : List (List ℚ)) (i j k : Nat) : List (List ℚ) :=
  set2 C i j (entryOf C i j + entryOf A i k * entryOf B k j)

/-- Embedding of `matmul` as a state program: allocate the fresh zero matrix `C`, then
run the triple nested loop, whose body writes only to `C` (reads are modelled
totally here; the fallible-access behaviour is `matmul` above). -/
def matmulRun (s : MState) : MState :=
  let m := s.A.length
  let l := (s.A.getD 0 []).length
  let n := (s.B.getD 0 []).length
  let s1 : MState := { s with C := List.replicate m (List.replicate n 0) }
  (List.range m).foldl (fun t i =>
    (List.range n).foldl (fun t j =>
      (List.range l).foldl (fun t k =>
        { t with C := cellWrite t.A t.B t.C i j k }) t) t) s1

/-- The state shared by the `njobs` threads of `multy_thread`: the single
`A` and `B` passed to every thread, and one result matrix per job. -/
structure SharedState where
  A : List (List ℚ)
  B : List (List ℚ)
  Cs : List (List (List ℚ))

/-- One scheduled step of the concurrent run: job `q.1` executes one
`C[i][j] += A[i][k] * B[k][j]` on its own result matrix, reading the shared
`A` and `B`. -/
def threadWrite (s : SharedState) (q : Nat × Nat × Nat × Nat) : SharedState :=
  SharedState.mk s.A s.B
    (s.Cs.set q.1 (cellWrite s.A s.B (s.Cs.getD q.1 []) q.2.1 q.2.2.1 q.2.2.2))

/-- An arbitrary interleaving of the jobs' loop iterations. -/
def runSchedule (s : SharedState) (sched : List (Nat × Nat × Nat × Nat)) :
    SharedState :=
  sched.foldl threadWrite s

end Matmul

namespace Toy

/-- Modelled from the spec: `find_palindrome` is imported by `server.py`
from the `longest_palindrome` module, which is absent from the sources; the
spec says only that the endpoint is a pure, stateless function of its input,
so the computation is embedded as an arbitrary function `String → String`.
The handler `longest_palindrome(input_string)` of `server.py` returns
`find_palindrome(input_string)`; the embedding threads an abstract server
state `σ` through the handler to express what it may read or write. -/
def longest_palindrome {σ : Type} (find_palindrome : String → String)
    (input_string : String) (st : σ) : String × σ :=
  (find_palindrome input_string, st)

end Toy

namespace Habr

/-- Claim C1: for every strategy and every `N > 0`, the result collection has
exactly `N` populated slots, one per task id in `[1, N]`.  The code violates
this: `single` (like the pools) iterates `range(1, n_tasks)` and so produces
`N - 1` results — none at all for `N = 1` — and `threads` allocates `N`
slots but its workers never write them, so every slot still holds the
initial `""`.  This theorem evaluates the code at the failing inputs. -/
theorem single_and_threads_break_slot_invariant :
    single (fun i => toString i) 1 = [] ∧
    threads (fun i => toString i) 2 = ["", ""] := by
  constructor <;> rfl

/-- Claim C2: the thread-per-task strategy spawns one unit per task (true:
`range(1, n_tasks+1)` spawns `N` threads) and each unit writes its result
under the lock into `titles[i-1]`.  The code violates the second part: the
threads are spawned with target `get_article_title`, which computes the
title and discards it, instead of `get_article_title_ths`, the helper that
performs the locked write.  At `N = 1` the shared list stays `[""]`, while
the described behaviour would produce `["T"]`. -/
theorem threads_spawns_nonwriting_target :
    threads (fun _ => "T") 1 = [""] ∧
    threadsIntended (fun _ => "T") 1 = ["T"] := by
  constructor <;> rfl

/-- Helper: the retry loop makes at most `rem` attempts. -/
theorem get_page_loop_attempts_le (fetch : Nat → Nat × String) (t : Nat) :
    ∀ rem idx, (get_page_loop fetch t rem idx).2.1 ≤ rem := by
  intro rem
  induction rem with
  | zero => intro idx; simp [get_page_loop]
  | succ rem ih =>
    intro idx
    rw [get_page_loop]
    split
    · simp
    · simpa using ih (idx + 1)

/-- Helper: when every attempt in the window fails, the loop makes all `rem`
attempts, sleeps `t` after each, and returns `none`. -/
theorem get_page_loop_all_fail (fetch : Nat → Nat × String) (t : Nat) :
    ∀ rem idx, (∀ i, idx ≤ i → i < idx + rem → (fetch i).1 ≠ 200) →
      get_page_loop fetch t rem idx = (none, rem, t * rem) := by
  intro rem
  induction rem with
  | zero => intro idx _; simp [get_page_loop]
  | succ rem ih =>
    intro idx h
    rw [get_page_loop]
    rw [if_neg (h idx le_rfl (by omega))]
    rw [ih (idx + 1) (fun i h1 h2 => h i (by omega) (by omega))]
    simp [Nat.mul_succ]

/-- Helper: when attempt `i` is the first success in the window, the loop
stops there, having made `i - idx + 1` attempts and slept after each of the
`i - idx` failures. -/
theorem get_page_loop_first_success (fetch : Nat → Nat × String) (t : Nat) :
    ∀ rem idx i, idx ≤ i → i < idx + rem → (fetch i).1 = 200 →
      (∀ j, idx ≤ j → j < i → (fetch j).1 ≠ 200) →
      get_page_loop fetch t rem idx =
        (some (fetch i).2, i - idx + 1, t * (i - idx)) := by
  intro rem
  induction rem with
  | zero => intro idx i h1 h2; omega
  | succ rem ih =>
    intro idx i h1 h2 hsucc hbefore
    rw [get_page_loop]
    by_cases hidx : (fetch idx).1 = 200
    · have hie : i = idx := by
        by_contra hne
        exact hbefore idx le_rfl (by omega) hidx
      subst hie
      simp [hidx]
    · have hlt : idx < i := by
        by_contra hge
        have hie : i = idx := by omega
        rw [hie] at hsucc
        exact hidx hsucc
      rw [if_neg hidx]
      rw [ih (idx + 1) i (by omega) (by omega) hsucc
        (fun j hj1 hj2 => hbefore j (by omega) hj2)]
      have ha : i - idx = (i - (idx + 1)) + 1 := by omega
      rw [ha, Nat.mul_succ]

/-- Claim C6: `get_page` makes at most `n_attempts` fetch attempts, sleeping
the fixed `t_sleep` after each failed one; when no attempt returns status
`200`, `get_article_title` returns the sentinel `"NOT FOUND"`, and when
attempt `i` is the first success it returns the title extracted from that
response body. -/
theorem bounded_retries_and_sentinel (extract : String → String)
    (fetch : Nat → Nat × String) (n t : Nat) :
    (get_page fetch n t).2.1 ≤ n ∧
    ((∀ i, i < n → (fetch i).1 ≠ 200) →
      get_page fetch n t = (none, n, t * n) ∧
      get_article_title extract fetch n t = "NOT FOUND") ∧
    (∀ i, i < n → (fetch i).1 = 200 → (∀ j, j < i → (fetch j).1 ≠ 200) →
      get_page fetch n t = (some (fetch i).2, i + 1, t * i) ∧
      get_article_title extract fetch n t = extract (fetch i).2) := by
  refine ⟨get_page_loop_attempts_le fetch t n 0, ?_, ?_⟩
  · intro h
    have hp : get_page fetch n t = (none, n, t * n) :=
      get_page_loop_all_fail fetch t n 0 (fun i _ h2 => h i (by omega))
    refine ⟨hp, ?_⟩
    unfold get_article_title get_habr_article
    rw [hp]
  · intro i hi hsucc hbefore
    have hp : get_page fetch n t = (some (fetch i).2, i + 1, t * i) := by
      have := get_page_loop_first_success fetch t n 0 i (Nat.zero_le i)
        (by omega) hsucc (fun j _ hj => hbefore j hj)
      simpa using this
    refine ⟨hp, ?_⟩
    unfold get_article_title get_habr_article
    rw [hp]

/-- Claim C6 (witness): with a fetch oracle that fails once with status 404
and then succeeds, five attempts and unit delay, the title extracted from
the successful body is returned. -/
theorem bounded_retries_and_sentinel_witness :
    get_article_title (fun s => s ++ "!")
      (fun i => if i = 0 then (404, "B") else (200, "B")) 5 1 = "B!" :=
  ((bounded_retries_and_sentinel (fun s => s ++ "!")
      (fun i => if i = 0 then (404, "B") else (200, "B")) 5 1).2.2 1
    (by decide) (by decide) (by decide)).2

/-- Helper: Python `range(a, b)` is empty when `b ≤ a`. -/
theorem pyRange_eq_nil {a b : Int} (h : b ≤ a) : pyRange a b = [] := by
  unfold pyRange
  rw [Int.toNat_of_nonpos (by omega)]
  rfl

/-- Helper: looking up `k` in an association list built by pairing each
index with `g` of itself returns `g k` whenever `k` occurs. -/
theorem lookup_map_pair (g : Nat → String) (k : Nat) :
    ∀ order : List Nat, k ∈ order →
      (order.map (fun idx => (idx, g idx))).lookup k = some (g k) := by
  intro order
  induction order with
  | nil => intro h; cases h
  | cons a rest ih =>
    intro h
    rcases List.mem_cons.mp h with h1 | h1
    · subst h1; simp [List.lookup_cons]
    · by_cases hk : k = a
      · subst hk; simp [List.lookup_cons]
      · have hbeq : (k == a) = false := beq_eq_false_iff_ne.mpr hk
        simp [List.lookup_cons, hbeq, ih h1]

/-- Helper: whenever the completion schedule covers every submission index,
`pool.map` returns exactly the work function mapped over the tasks in
submission order. -/
theorem poolMap_eq_map (f : Int → String) (tasks : List Int)
    (order : List Nat) (hcover : ∀ k, k < tasks.length → k ∈ order) :
    poolMap f tasks order = tasks.map f := by
  unfold poolMap poolCollect
  apply List.ext_get
  · simp
  · intro k h1 h2
    simp only [List.get_eq_getElem, List.getElem_map, List.getElem_range]
    have hk : k < tasks.length := by simpa using h2
    rw [lookup_map_pair (fun idx => f (tasks.getD idx 0)) k order (hcover k hk)]
    simp [List.getD_eq_getElem?_getD, List.getElem?_eq_getElem hk]

/-- Helper: element `k` of `pyRange a b`. -/
theorem pyRange_getElem (a b : Int) (k : Nat) (hk : k < (pyRange a b).length) :
    (pyRange a b)[k] = a + (k : Int) := by
  unfold pyRange
  simp only [List.getElem_map, List.getElem_range]

/-- Helper: the driver output for titles produced over `range(1, n)`. -/
theorem outputOf_pyRange_map (f : Int → String) (n : Int) :
    outputOf ((pyRange 1 n).map f) =
      (pyRange 1 n).map (fun i => formatLine i (f i)) := by
  unfold outputOf
  apply List.ext_get
  · simp
  · intro k h1 h2
    simp only [List.get_eq_getElem, List.getElem_map, List.getElem_range]
    have hk : k < (pyRange 1 n).length := by simpa using h2
    have hx : (pyRange 1 n)[k] = 1 + (k : Int) := pyRange_getElem 1 n k hk
    rw [List.getD_eq_getElem?_getD,
      List.getElem?_eq_getElem (by simpa using hk :
        k < ((pyRange 1 n).map f).length)]
    simp [hx, Int.add_comm]

/-- Claim C7: the pool strategies return their result lists indexed by
submission order — for every completion schedule that completes each
submitted task, slot `k` holds the work function's result for the `k`-th
submitted task id — and the driver prints one line per task, in increasing
task-id order, in the format `Article <id> title: <value>` (with the id
space-padded to width 2 as by `{i:2}`). -/
theorem pool_results_in_submission_order (f : Int → String) (n : Int)
    (order : List Nat)
    (hcover : ∀ k, k < (pyRange 1 n).length → k ∈ order) :
    thread_pool f n order = (pyRange 1 n).map f ∧
    process_pool f n order = (pyRange 1 n).map f ∧
    outputOf (thread_pool f n order) =
      (pyRange 1 n).map (fun i => "Article " ++ pad2 i ++ " title: " ++ f i) := by
  have h1 : thread_pool f n order = (pyRange 1 n).map f :=
    poolMap_eq_map f _ order hcover
  refine ⟨h1, poolMap_eq_map f _ order hcover, ?_⟩
  rw [h1, outputOf_pyRange_map]
  rfl

/-- Claim C7 (witness): three tasks are submitted as ids 1 and 2; with the
workers completing in reversed order the results still come back in
submission order. -/
theorem pool_results_in_submission_order_witness :
    thread_pool (fun i => toString i) 3 [1, 0] = ["1", "2"] := by
  have h := pool_results_in_submission_order (fun i => toString i) 3 [1, 0]
    (by decide)
  rw [h.1]
  rfl

/-- Claim C3: all strategies produce identical result collections for the
same deterministic work function.  The code violates this: at `N = 2` with
`f i = str(2·i)`, `single`, `thread_pool` and `process_pool` each return
`["2"]` (task ids `1 … N-1`), but `threads` returns `["", ""]` — its workers
never store their results. -/
theorem strategies_disagree :
    single (fun i => toString (2 * i)) 2 = ["2"] ∧
    thread_pool (fun i => toString (2 * i)) 2 [0] = ["2"] ∧
    process_pool (fun i => toString (2 * i)) 2 [0] = ["2"] ∧
    threads (fun i => toString (2 * i)) 2 = ["", ""] ∧
    threads (fun i => toString (2 * i)) 2 ≠
      single (fun i => toString (2 * i)) 2 := by
  refine ⟨rfl, rfl, rfl, rfl, ?_⟩
  decide

end Habr

namespace Matmul

/-- Helper: `mapM` over `Option` of a pointwise-`some` function is the
`some` of the map. -/
theorem mapM_eq_some {α β : Type} (F : α → Option β) (g : α → β) :
    ∀ xs : List α, (∀ x ∈ xs, F x = some (g x)) →
      xs.mapM F = some (xs.map g) := by
  intro xs
  induction xs with
  | nil => intro _; rfl
  | cons x rest ih =>
    intro h
    rw [List.mapM_cons, h x (List.mem_cons_self x rest),
      ih (fun y hy => h y (List.mem_cons.mpr (Or.inr hy)))]
    rfl

/-- Helper: a fold of a step that always adds `g k` computes the running
sum. -/
theorem foldlM_range_sum (step : ℚ → Nat → Option ℚ) (g : Nat → ℚ) :
    ∀ L : Nat, (∀ a k, k < L → step a k = some (a + g k)) →
      ∀ a : ℚ, (List.range L).foldlM step a =
        some (a + ∑ k in Finset.range L, g k) := by
  intro L
  induction L with
  | zero => intro _ a; simp
  | succ L ih =>
    intro h a
    rw [List.range_succ, List.foldlM_append,
      ih (fun a k hk => h a k (by omega)) a]
    simp only [List.foldlM_cons, List.foldlM_nil, Option.bind_eq_bind,
      Option.some_bind]
    rw [h _ L (by omega)]
    simp [Finset.sum_range_succ, add_assoc]

/-- Helper: when all four index accesses are in range, the loop body adds
`A[i][k] * B[k][j]` to the accumulator. -/
theorem cellStep_eq_some (A B : List (List ℚ)) (i j k : Nat)
    (Ai : List ℚ) (hAi : A[i]? = some Ai) (hk : k < Ai.length)
    (Bk : List ℚ) (hBk : B[k]? = some Bk) (hj : j < Bk.length) :
    ∀ a, cellStep A B i j a k =
      some (a + entryOf A i k * entryOf B k j) := by
  intro a
  have h1 : Ai[k]? = some (Ai[k]) := List.getElem?_eq_getElem hk
  have h2 : Bk[j]? = some (Bk[j]) := List.getElem?_eq_getElem hj
  have e1 : entryOf A i k = Ai[k] := by
    unfold entryOf
    rw [hAi]
    simp [h1]
  have e2 : entryOf B k j = Bk[j] := by
    unfold entryOf
    rw [hBk]
    simp [h2]
  unfold cellStep
  rw [hAi]
  simp [h1, hBk, h2, e1, e2]

/-- Helper: under the access-safety conditions (`A` non-empty and
rectangular with rows of length `l`, `B` non-empty with at least `l` rows,
each of length at least that of `B[0]`), `matmul` succeeds and returns the
matrix of multiply-accumulate sums. -/
theorem matmul_eq_of (A B : List (List ℚ)) (m l n : Nat)
    (hAlen : A.length = m) (hm : 0 < m)
    (hArow : ∀ row ∈ A, row.length = l)
    (hBpos : 0 < B.length) (hBlen : l ≤ B.length)
    (hn : (B[0]?.getD []).length = n)
    (hBrow : ∀ row ∈ B, n ≤ row.length) :
    matmul A B = some ((List.range m).map (fun i => (List.range n).map
      (fun j => ∑ k in Finset.range l, entryOf A i k * entryOf B k j))) := by
  have hmA : 0 < A.length := by omega
  have hA0 : A[0]? = some (A[0]) := List.getElem?_eq_getElem hmA
  have hB0 : B[0]? = some (B[0]) := List.getElem?_eq_getElem hBpos
  have hA0len : (A[0]).length = l := hArow _ (List.getElem_mem hmA)
  have hB0len : (B[0]).length = n := by
    rw [hB0] at hn
    simpa using hn
  unfold matmul
  rw [hA0, hB0]
  simp only [Option.bind_eq_bind, Option.some_bind, hA0len, hB0len, hAlen]
  apply mapM_eq_some
  intro i hi
  apply mapM_eq_some
  intro j hj
  have hi' : i < A.length := by
    rw [hAlen]
    exact List.mem_range.mp hi
  have hj' : j < n := List.mem_range.mp hj
  have hAi : A[i]? = some (A[i]) := List.getElem?_eq_getElem hi'
  have hAilen : (A[i]).length = l := hArow _ (List.getElem_mem hi')
  have hstep : ∀ a k, k < l →
      cellStep A B i j a k = some (a + entryOf A i k * entryOf B k j) := by
    intro a k hk
    have hkB : k < B.length := by omega
    have hBk : B[k]? = some (B[k]) := List.getElem?_eq_getElem hkB
    have hjB : j < (B[k]).length := by
      have := hBrow _ (List.getElem_mem hkB)
      omega
    exact cellStep_eq_some A B i j k _ hAi (by omega) _ hBk hjB a
  rw [foldlM_range_sum (cellStep A B i j)
    (fun k => entryOf A i k * entryOf B k j) l hstep 0]
  rw [zero_add]

/-- Helper: entry of a matrix given as a double `map` over ranges. -/
theorem entryOf_map_map (m n : Nat) (h : Nat → Nat → ℚ) (i j : Nat)
    (hi : i < m) (hj : j < n) :
    entryOf ((List.range m).map
      (fun i => (List.range n).map (fun j => h i j))) i j = h i j := by
  have h1 : ((List.range m).map
      (fun i => (List.range n).map (fun j => h i j)))[i]? =
      some ((List.range n).map (fun j => h i j)) := by
    rw [List.getElem?_eq_getElem (by simpa using hi)]
    simp
  have h2 : ((List.range n).map (fun j => h i j))[j]? = some (h i j) := by
    rw [List.getElem?_eq_getElem (by simpa using hj)]
    simp
  unfold entryOf
  rw [h1]
  simp [h2]

/-- Helper: `entryOf` agrees with in-bounds indexing. -/
theorem entryOf_eq_getElem (M : List (List ℚ)) (i j : Nat)
    (hi : i < M.length) (hj : j < (M[i]).length) :
    entryOf M i j = (M[i])[j] := by
  unfold entryOf
  rw [List.getElem?_eq_getElem hi]
  simp only [Option.getD_some]
  rw [List.getElem?_eq_getElem hj]
  rfl

/-- Helper: every entry read from the zero matrix is `0`. -/
theorem entryOf_zeroMat (l n k j : Nat) : entryOf (zeroMat l n) k j = 0 := by
  unfold entryOf zeroMat
  rcases Nat.lt_or_ge k l with hk | hk
  · have h1 : (List.replicate l (List.replicate n (0 : ℚ)))[k]? =
        some (List.replicate n 0) := by
      rw [List.getElem?_eq_getElem (by simpa using hk)]
      simp
    rw [h1]
    simp only [Option.getD_some]
    rcases Nat.lt_or_ge j n with hj | hj
    · have h2 : (List.replicate n (0 : ℚ))[j]? = some 0 := by
        rw [List.getElem?_eq_getElem (by simpa using hj)]
        simp
      simp [h2]
    · rw [List.getElem?_eq_none (by simpa using hj)]
      rfl
  · have h1 : (List.replicate l (List.replicate n (0 : ℚ)))[k]? = none :=
      List.getElem?_eq_none (by simpa using hk)
    rw [h1]
    rfl

/-- Helper: the identity matrix is square with `ite` entries. -/
theorem isMatrix_idMat (m : Nat) : IsMatrix (idMat m) m m := by
  constructor
  · simp [idMat]
  · intro row hrow
    rcases List.mem_map.mp hrow with ⟨i, _, hrow⟩
    rw [← hrow]
    simp

/-- Claim C5: for non-empty `m×l` and `l×n` inputs, `matmul` returns the
`m×n` matrix with `C[i][j] = Σ_k A[i][k]·B[k][j]`; in particular an
identity matrix times an arbitrary matrix is that matrix exactly, and any
matrix times a zero matrix is the all-zero matrix of the right shape. -/
theorem matmul_functional_correctness :
    (∀ A B : List (List ℚ), ∀ m l n : Nat, 0 < m → 0 < l →
      IsMatrix A m l → IsMatrix B l n →
      ∃ C, matmul A B = some C ∧ IsMatrix C m n ∧
        ∀ i, i < m → ∀ j, j < n →
          entryOf C i j =
            ∑ k in Finset.range l, entryOf A i k * entryOf B k j) ∧
    (∀ (m n : Nat) (M : List (List ℚ)), 0 < m → IsMatrix M m n →
      matmul (idMat m) M = some M) ∧
    (∀ (A : List (List ℚ)) (m l n : Nat), 0 < m → 0 < l → IsMatrix A m l →
      matmul A (zeroMat l n) = some (zeroMat m n)) := by
  refine ⟨?_, ?_, ?_⟩
  · intro A B m l n hm hl hA hB
    obtain ⟨hAlen, hArow⟩ := hA
    obtain ⟨hBlen, hBrow⟩ := hB
    have hBpos : 0 < B.length := by omega
    have hn : (B[0]?.getD []).length = n := by
      rw [List.getElem?_eq_getElem hBpos]
      simpa using hBrow _ (List.getElem_mem hBpos)
    have hmain := matmul_eq_of A B m l n hAlen hm hArow hBpos (by omega) hn
      (fun row hrow => le_of_eq (hBrow row hrow).symm)
    refine ⟨_, hmain, ⟨by simp, ?_⟩, ?_⟩
    · intro row hrow
      rcases List.mem_map.mp hrow with ⟨i, _, hrow⟩
      rw [← hrow]
      simp
    · intro i hi j hj
      exact entryOf_map_map m n _ i j hi hj
  · intro m n M hm hM
    obtain ⟨hMlen, hMrow⟩ := hM
    have hMpos : 0 < M.length := by omega
    have hn : (M[0]?.getD []).length = n := by
      rw [List.getElem?_eq_getElem hMpos]
      simpa using hMrow _ (List.getElem_mem hMpos)
    have hmain := matmul_eq_of (idMat m) M m m n (by simp [idMat]) hm
      (isMatrix_idMat m).2 hMpos (by omega) hn
      (fun row hrow => le_of_eq (hMrow row hrow).symm)
    rw [hmain]
    congr 1
    apply List.ext_get
    · simp [hMlen]
    · intro i h1 h2
      simp only [List.get_eq_getElem, List.getElem_map, List.getElem_range]
      have hi : i < m := by simpa using h1
      have hiM : i < M.length := by omega
      have hrowlen : (M[i]).length = n := hMrow _ (List.getElem_mem hiM)
      apply List.ext_get
      · simpa using hrowlen.symm
      · intro j hj1 hj2
        simp only [List.get_eq_getElem, List.getElem_map, List.getElem_range]
        have hj : j < n := by simpa using hj1
        have hjM : j < (M[i]).length := by omega
        calc (∑ k in Finset.range m,
                entryOf (idMat m) i k * entryOf M k j)
            = ∑ k in Finset.range m,
                (if i = k then entryOf M k j else 0) := by
              apply Finset.sum_congr rfl
              intro k hk
              have hidk : entryOf (idMat m) i k =
                  if i = k then (1 : ℚ) else 0 := by
                unfold idMat
                exact entryOf_map_map m m _ i k hi (Finset.mem_range.mp hk)
              rw [hidk, ite_mul, one_mul, zero_mul]
          _ = entryOf M i j := by
              rw [Finset.sum_ite_eq]
              simp [Finset.mem_range.mpr hi]
          _ = (M[i])[j] := entryOf_eq_getElem M i j hiM hjM
  · intro A m l n hm hl hA
    obtain ⟨hAlen, hArow⟩ := hA
    have hzpos : 0 < (zeroMat l n).length := by simpa [zeroMat] using hl
    have hn : ((zeroMat l n)[0]?.getD []).length = n := by
      rw [List.getElem?_eq_getElem hzpos]
      simp [zeroMat]
    have hmain := matmul_eq_of A (zeroMat l n) m l n hAlen hm hArow hzpos
      (by simp [zeroMat]) hn
      (fun row hrow => by rw [List.eq_of_mem_replicate hrow]; simp)
    rw [hmain]
    congr 1
    have hinner : ∀ i ∈ List.range m,
        (List.range n).map (fun j => ∑ k in Finset.range l,
          entryOf A i k * entryOf (zeroMat l n) k j) =
          List.replicate n (0 : ℚ) := by
      intro i _
      rw [List.map_congr_left (fun j _ => by
        apply Finset.sum_eq_zero
        intro k _
        rw [entryOf_zeroMat, mul_zero])]
      simp [List.map_const']
    rw [List.map_congr_left hinner]
    simp [List.map_const', zeroMat]

/-- Claim C5 (witness): the 2×2 identity matrix times the 2×1 matrix
`[[5], [7]]` returns that matrix exactly. -/
theorem matmul_functional_correctness_witness :
    matmul (idMat 2) [[5], [7]] = some [[5], [7]] :=
  matmul_functional_correctness.2.1 2 1 [[5], [7]] (by decide)
    ⟨rfl, by decide⟩

/-- Helper: a monadic fold over `Option` dies once it reaches an element on
which the step always fails. -/
theorem foldlM_eq_none {α : Type} (f : ℚ → α → Option ℚ) (x0 : α)
    (hx0 : ∀ a, f a x0 = none) :
    ∀ xs : List α, x0 ∈ xs → ∀ a, xs.foldlM f a = none := by
  intro xs
  induction xs with
  | nil => intro h; cases h
  | cons y ys ih =>
    intro h a
    rw [List.foldlM_cons]
    rcases List.mem_cons.mp h with h1 | h1
    · rw [← h1, hx0 a]
      rfl
    · cases hy : f a y with
      | none => rfl
      | some b =>
        simp only [Option.bind_eq_bind, Option.some_bind]
        exact ih h1 b

/-- Claim C9 (counterexample): the claim's access-safety conditions hold for
`A = [[]]` (non-empty, rectangular with rows of length `l = 0`) and `B = []`
(at least `l = 0` rows, row-length condition vacuous), yet `matmul` performs
an out-of-bounds access: reading `B[0]` for `n = len(B[0])` raises, so the
embedding returns `none`. -/
theorem matmul_oob_counterexample :
    0 < ([([] : List ℚ)]).length ∧
    (∀ row ∈ [([] : List ℚ)], row.length = 0) ∧
    ([] : List (List ℚ)).length ≥ 0 ∧
    (∀ row ∈ ([] : List (List ℚ)),
      (([] : List (List ℚ))[0]?.getD []).length ≤ row.length) ∧
    matmul [([] : List ℚ)] [] = none := by
  exact ⟨by decide, by decide, by decide, by decide, rfl⟩

/-- Claim C9 (amended): `matmul(A, B)` performs no out-of-bounds access when
`A` is a non-empty rectangular matrix with rows of length `l` and `B` is
non-empty with at least `l` rows, each of length at least `len(B[0])`;
calling it with an empty `A` or an empty `B` raises an index error, and so
does `len(B) < l` provided `B[0]` is non-empty (when `len(B[0]) = 0` the
inner loops never run and no access to `B[k]` occurs). -/
theorem matmul_access_safety :
    (∀ (A B : List (List ℚ)) (l : Nat), 0 < A.length →
      (∀ row ∈ A, row.length = l) → l ≤ B.length → 0 < B.length →
      (∀ row ∈ B, (B[0]?.getD []).length ≤ row.length) →
      (matmul A B).isSome) ∧
    (∀ B : List (List ℚ), matmul [] B = none) ∧
    (∀ A : List (List ℚ), matmul A [] = none) ∧
    (∀ (A B : List (List ℚ)) (l : Nat), 0 < A.length →
      (∀ row ∈ A, row.length = l) → B.length < l → 0 < B.length →
      0 < (B[0]?.getD []).length → matmul A B = none) := by
  refine ⟨?_, ?_, ?_, ?_⟩
  · intro A B l hA hArow hBlen hBpos hBrow
    rw [matmul_eq_of A B A.length l ((B[0]?.getD []).length) rfl hA hArow
      hBpos hBlen rfl hBrow]
    rfl
  · intro B
    rfl
  · intro A
    cases A with
    | nil => rfl
    | cons h t => simp [matmul]
  · intro A B l hApos hArow hBl hBpos hn
    have hA0 : A[0]? = some (A[0]) := List.getElem?_eq_getElem hApos
    have hB0 : B[0]? = some (B[0]) := List.getElem?_eq_getElem hBpos
    have hA0len : (A[0]).length = l := hArow _ (List.getElem_mem hApos)
    have hn' : 0 < (B[0]).length := by
      rw [hB0] at hn
      simpa using hn
    have hstepnone : ∀ a, cellStep A B 0 0 a B.length = none := by
      intro a
      unfold cellStep
      rw [hA0]
      simp only [Option.bind_eq_bind, Option.some_bind]
      have hk : B.length < (A[0]).length := by omega
      rw [List.getElem?_eq_getElem hk]
      have hBnone : B[B.length]? = none := List.getElem?_eq_none le_rfl
      simp [hBnone]
    have hfold : (List.range (A[0]).length).foldlM
        (cellStep A B 0 0) 0 = none := by
      apply foldlM_eq_none (cellStep A B 0 0) B.length hstepnone
      rw [List.mem_range]
      omega
    obtain ⟨m', hm'⟩ : ∃ m', A.length = m' + 1 :=
      ⟨A.length - 1, by omega⟩
    obtain ⟨n', hn2⟩ : ∃ n', (B[0]).length = n' + 1 :=
      ⟨(B[0]).length - 1, by omega⟩
    unfold matmul
    rw [hA0, hB0]
    simp only [Option.bind_eq_bind, Option.some_bind]
    rw [hm', List.range_succ_eq_map, List.mapM_cons]
    rw [hn2, List.range_succ_eq_map, List.mapM_cons]
    rw [hfold]
    rfl

/-- Claim C9 (witness): the amended bounds at concrete inputs — a safe
`1×1 · 1×1` product succeeds, and a `1×2` matrix times a single-row matrix
(fewer rows than `l = 2`, with a non-empty first row) raises. -/
theorem matmul_access_safety_witness :
    (matmul [[1]] [[2]]).isSome ∧ matmul [[1, 2]] [[3]] = none := by
  exact ⟨matmul_access_safety.1 [[1]] [[2]] 1 (by decide) (by decide)
      (by decide) (by decide) (by decide),
    matmul_access_safety.2.2.2 [[1, 2]] [[3]] 2 (by decide) (by decide)
      (by decide) (by decide) (by decide)⟩

/-- Helper: a fold whose step preserves `A` and `B` preserves them. -/
theorem foldl_preserves_AB {α : Type} (g : MState → α → MState)
    (hg : ∀ t x, (g t x).A = t.A ∧ (g t x).B = t.B) :
    ∀ (xs : List α) (t : MState),
      (xs.foldl g t).A = t.A ∧ (xs.foldl g t).B = t.B := by
  intro xs
  induction xs with
  | nil => intro t; exact ⟨rfl, rfl⟩
  | cons x rest ih =>
    intro t
    rw [List.foldl_cons]
    obtain ⟨h1, h2⟩ := ih (g t x)
    obtain ⟨h3, h4⟩ := hg t x
    exact ⟨h1.trans h3, h2.trans h4⟩

/-- Claim C10: `matmul` writes only into the freshly allocated `C`: the
argument matrices are unchanged by a run, and under every interleaving of
the `njobs` concurrent `matmul` executions of `multy_thread`, the shared
`A` and `B` are never mutated. -/
theorem matmul_leaves_arguments_unchanged :
    (∀ s : MState, (matmulRun s).A = s.A ∧ (matmulRun s).B = s.B) ∧
    (∀ (s : SharedState) (sched : List (Nat × Nat × Nat × Nat)),
      (runSchedule s sched).A = s.A ∧ (runSchedule s sched).B = s.B) := by
  constructor
  · intro s
    unfold matmulRun
    apply foldl_preserves_AB
    intro t i
    apply foldl_preserves_AB
    intro t j
    apply foldl_preserves_AB
    intro t k
    exact ⟨rfl, rfl⟩
  · intro s sched
    unfold runSchedule
    induction sched generalizing s with
    | nil => exact ⟨rfl, rfl⟩
    | cons q rest ih =>
      rw [List.foldl_cons]
      obtain ⟨h1, h2⟩ := ih (threadWrite s q)
      exact ⟨h1.trans rfl, h2.trans rfl⟩

end Matmul

/-- Claim C4 (counterexample): the claim says `habr.py` with
`n_tasks ≤ 0` fails at startup with a non-zero exit; in fact `main` of
`habr.py` performs no validation, and at `n_tasks = 0` in mode `single` the
run completes normally with empty output (`Except.ok`, not an error). -/
theorem habr_accepts_nonpositive_n_tasks :
    Habr.main (fun _ => "X") [] Habr.Mode.single 0 =
      Except.ok ([] : List String) := by
  rfl

/-- Claim C4 (amended): `matmul.py` validates as claimed — with `--njobs`
provided and `njobs ≤ 0` it exits via `SystemExit` with the message
`--njobs must be a positive integer.` before any job executes — but
`habr.py` performs no validation: for every mode and every `n_tasks ≤ 0` it
runs an empty task set, prints nothing and exits normally. -/
theorem nonpositive_count_validation (nj : Int) (hnj : nj ≤ 0)
    (mode : Matmul.MMode) (f : Int → String) (order : List Nat)
    (hmode : Habr.Mode) (n : Int) (hn : n ≤ 0) :
    Matmul.main (some nj) mode =
      Except.error "--njobs must be a positive integer." ∧
    Habr.main f order hmode n = Except.ok ([] : List String) := by
  constructor
  · simp [Matmul.main, hnj]
  · have hrep : List.replicate n.toNat "" = ([] : List String) := by
      rw [Int.toNat_of_nonpos hn]
      rfl
    cases hmode <;>
      simp [Habr.main, Habr.single, Habr.threads, Habr.thread_pool,
        Habr.process_pool, Habr.poolMap, Habr.poolCollect, Habr.outputOf,
        Habr.pyRange_eq_nil (by omega : n ≤ 1),
        Habr.pyRange_eq_nil (by omega : n + 1 ≤ 1), hrep]

/-- Claim C4 (witness): the amended validation behaviour at `njobs = 0` and
`n_tasks = -3`. -/
theorem nonpositive_count_validation_witness :
    Matmul.main (some 0) Matmul.MMode.thread =
      Except.error "--njobs must be a positive integer." ∧
    Habr.main (fun _ => "X") [] Habr.Mode.threads (-3) =
      Except.ok ([] : List String) :=
  nonpositive_count_validation 0 (by decide) Matmul.MMode.thread
    (fun _ => "X") [] Habr.Mode.threads (-3) (by decide)

/-- Claim C8: the toy endpoint's handler is a pure, stateless function of
its path parameter: invoked twice with the same `input_string` it returns
the same response whatever the server state, and it leaves the server state
untouched. -/
theorem handler_pure_stateless {σ : Type} (find_palindrome : String → String)
    (input_string : String) (st st' : σ) :
    (Toy.longest_palindrome find_palindrome input_string st).1 =
      (Toy.longest_palindrome find_palindrome input_string st').1 ∧
    (Toy.longest_palindrome find_palindrome input_string st).2 = st :=
  ⟨rfl, rfl⟩
